import Mathlib

/-!
Shallow embedding of the glue code of the `two-layer-model` repository
(`algorithm_compare.py`, `original_two_layer_model.py`, `riskslim_in_use.py`,
`LR_1_RiskSLIM_2.py`) together with theorems settling the frozen claims about
the specification.

Numeric values carried by the CSV data are modelled as rationals (the Python
code only ever compares them, adds them and divides them, which ℚ models
exactly on the inputs of interest).  Python dictionaries are modelled as
association lists with insertion-order semantics, Python lists as Lean lists.
-/

namespace TwoLayer

/-! ### Interval strings and `checkWhichDivision` (`algorithm_compare.py` 79-95)

A split string is one of `'(-INF,b]'`, `'(a,b]'`, `'(a,+INF)'`.
`checkWhichDivision` branches on whether the string contains `'-INF'`
(first interval), `'+INF'` (last interval) or neither (middle interval), and
then parses out the one or two numeric bounds.  We embed a well-formed split
string as the branch tag plus its parsed bounds; this is exactly the
information the Python function extracts from the string. -/

inductive Division where
  /-- the string `(-INF,b]` -/
  | firstDiv (b : ℚ)
  /-- the string `(a,b]` -/
  | middleDiv (a b : ℚ)
  /-- the string `(a,+INF)` -/
  | lastDiv (a : ℚ)
deriving DecidableEq, Repr

/-- The membership test each branch of `checkWhichDivision` performs:
first interval: `var <= b`; middle interval: `b >= var > a`;
last interval: `var > a`. -/
def divContains (d : Division) (v : ℚ) : Prop :=
  match d with
  | .firstDiv b => v ≤ b
  | .middleDiv a b => a < v ∧ v ≤ b
  | .lastDiv a => a < v

instance : ∀ (d : Division) (v : ℚ), Decidable (divContains d v)
  | .firstDiv b, v => inferInstanceAs (Decidable (v ≤ b))
  | .middleDiv a b, v => inferInstanceAs (Decidable (a < v ∧ v ≤ b))
  | .lastDiv a, v => inferInstanceAs (Decidable (a < v))

/-- `checkWhichDivision(split_list, var)`: scan the split strings in order,
returning `i+1` for the first index `i` whose interval test succeeds, and
(implicitly in Python) `None` when none succeeds.  `i` is threaded explicitly. -/
def checkWhichDivisionAux (split_list : List Division) (var : ℚ) (i : ℕ) : Option ℕ :=
  match split_list with
  | [] => none
  | d :: rest =>
    if divContains d var then some (i + 1) else checkWhichDivisionAux rest var (i + 1)

def checkWhichDivision (split_list : List Division) (var : ℚ) : Option ℕ :=
  checkWhichDivisionAux split_list var 0

/-- A well-formed split list over strictly increasing breakpoints
`b₀ < b₁ < … < b_{k-1}`: the strings
`(-INF,b₀]`, `(b₀,b₁]`, …, `(b_{k-2},b_{k-1}]`, `(b_{k-1},+INF)`.
(`mkSplitListGo prev bs` produces the part after the first interval.) -/
def mkSplitListGo (prev : ℚ) : List ℚ → List Division
  | [] => [.lastDiv prev]
  | b :: bs => .middleDiv prev b :: mkSplitListGo b bs

def mkSplitList : List ℚ → List Division
  | [] => []
  | b :: bs => .firstDiv b :: mkSplitListGo b bs

/-! ### Python strings: `str(n)` and the `in` substring operator -/

/-- The decimal digit values of `n`, most significant first, computed with
an explicit fuel so that the definition is structurally recursive (the fuel
`n` itself always suffices). -/
def pyNatDigits : ℕ → ℕ → List ℕ
  | 0, _ => []
  | _ + 1, 0 => []
  | fuel + 1, n + 1 => pyNatDigits fuel ((n + 1) / 10) ++ [(n + 1) % 10]

/-- Python `str(n)` for a non-negative integer: decimal digits, most
significant first (`str(0) = "0"`). -/
def pyNatStr (n : ℕ) : String :=
  if n = 0 then "0" else ⟨(pyNatDigits n n).map (fun d => Char.ofNat (48 + d))⟩

/-- Python `needle in hay` on strings: `needle` occurs contiguously in `hay`. -/
def pySubstr (needle hay : String) : Prop :=
  needle.toList <:+: hay.toList

instance (needle hay : String) : Decidable (pySubstr needle hay) :=
  inferInstanceAs (Decidable (needle.toList <:+: hay.toList))

/-! ### `generateColNames` (`algorithm_compare.py` 71-75, identical copies in
`original_two_layer_model.py` 9-13 and `RiskSLIM_1_LR_1.py` 13-17) -/

/-- `generateColNames(var, split_num)` returns `[var_1, ..., var_split_num]`. -/
def generateColNames (var : String) (split_num : ℕ) : List String :=
  (List.range split_num).map (fun i => var ++ "_" ++ pyNatStr (i + 1))

/-! ### `generateCurRowInDict` (`algorithm_compare.py` 99-113)

The Python function walks the column names in order with a `hasSetOne` flag;
the first column whose name contains `str(whichDivision)` as a substring gets
value 1 and every other column gets 0.  The result is an insertion-ordered
dict, modelled as an association list. -/

def generateCurRowInDictGo (whichDivision : ℕ) :
    List String → Bool → List (String × ℕ)
  | [], _ => []
  | c :: cs, hasSetOne =>
    if hasSetOne then (c, 0) :: generateCurRowInDictGo whichDivision cs true
    else if pySubstr (pyNatStr whichDivision) c then
      (c, 1) :: generateCurRowInDictGo whichDivision cs true
    else (c, 0) :: generateCurRowInDictGo whichDivision cs false

def generateCurRowInDict (col_names : List String) (whichDivision : ℕ) :
    List (String × ℕ) :=
  generateCurRowInDictGo whichDivision col_names false

/-! ### `printPerformance` (`algorithm_compare.py` 36-67)

The loop builds the four index lists TP, FN, FP, TN by appending `i` to the
matching one, then computes the four ratios.  Out-of-range reads cannot occur
at the call sites (equal-length vectors); `getD _ 0` stands for `test_y[i]`. -/

def confusionListsGo (test_y pred_y : List ℤ) :
    ℕ → List ℕ × List ℕ × List ℕ × List ℕ
  | 0 => ([], [], [], [])
  | n + 1 =>
    let c := confusionListsGo test_y pred_y n
    if pred_y.getD n 0 = 1 ∧ test_y.getD n 0 = 1 then (c.1 ++ [n], c.2.1, c.2.2.1, c.2.2.2)
    else if pred_y.getD n 0 = -1 ∧ test_y.getD n 0 = 1 then (c.1, c.2.1 ++ [n], c.2.2.1, c.2.2.2)
    else if pred_y.getD n 0 = 1 ∧ test_y.getD n 0 = -1 then (c.1, c.2.1, c.2.2.1 ++ [n], c.2.2.2)
    else if pred_y.getD n 0 = -1 ∧ test_y.getD n 0 = -1 then (c.1, c.2.1, c.2.2.1, c.2.2.2 ++ [n])
    else (c.1, c.2.1, c.2.2.1, c.2.2.2)

def confusionLists (test_y pred_y : List ℤ) :
    List ℕ × List ℕ × List ℕ × List ℕ :=
  confusionListsGo test_y pred_y pred_y.length

/-- The four numbers `printPerformance` prints, in print order:
accuracy, precision, recall, F1.  (Python would raise `ZeroDivisionError` on
an empty denominator; the claims only concern inputs whose denominators are
positive, where ℚ division agrees with Python's.) -/
def printPerformance (test_y pred_y : List ℤ) : ℚ × ℚ × ℚ × ℚ :=
  let c := confusionLists test_y pred_y
  let nTP : ℚ := c.1.length
  let nFN : ℚ := c.2.1.length
  let nFP : ℚ := c.2.2.1.length
  let nTN : ℚ := c.2.2.2.length
  let accuracy := (nTP + nTN) / (nTP + nFP + nTN + nFN)
  let precision := nTP / (nTP + nFP)
  let recallQ := nTP / (nTP + nFN)
  let F1_score := 2 * ((precision * recallQ) / (precision + recallQ))
  (accuracy, precision, recallQ, F1_score)

/-! Claim-side index sets for C3: the indices with
`(pred, true) = (1,1), (-1,1), (1,-1), (-1,-1)` respectively, to be compared
with the lists the `printPerformance` loop builds. -/

def specTP (test_y pred_y : List ℤ) : List ℕ :=
  (List.range pred_y.length).filter
    (fun i => decide (pred_y.getD i 0 = 1 ∧ test_y.getD i 0 = 1))

def specFN (test_y pred_y : List ℤ) : List ℕ :=
  (List.range pred_y.length).filter
    (fun i => decide (pred_y.getD i 0 = -1 ∧ test_y.getD i 0 = 1))

def specFP (test_y pred_y : List ℤ) : List ℕ :=
  (List.range pred_y.length).filter
    (fun i => decide (pred_y.getD i 0 = 1 ∧ test_y.getD i 0 = -1))

def specTN (test_y pred_y : List ℤ) : List ℕ :=
  (List.range pred_y.length).filter
    (fun i => decide (pred_y.getD i 0 = -1 ∧ test_y.getD i 0 = -1))

/-! ### Train/test split call sites (claim C4)

Each model variant calls `sklearn.model_selection.train_test_split` exactly
with the keyword arguments recorded here.  The splitter itself is external
library code; its output is modelled as an arbitrary function of the data
size and of these two parameters, which suffices for the determinism claim. -/

structure SplitCall where
  testSize : ℚ
  randomState : ℕ
deriving DecidableEq, Repr

inductive Variant where
  /-- the plain logistic-regression baseline, `algorithm_compare.py` 262 -/
  | logisticRegBaseline
  /-- `original_two_layer_model.py` 17-20 -/
  | originalTwoLayer
  /-- `riskslim_in_use.py` 35 -/
  | riskslimInUse
  /-- `LR_1_RiskSLIM_2.py` 24 (the identical call is repeated at line 57) -/
  | lr1riskslim2
deriving DecidableEq, Repr

def splitCall : Variant → SplitCall
  | .logisticRegBaseline => ⟨3/10, 666⟩
  | .originalTwoLayer => ⟨3/10, 666⟩
  | .riskslimInUse => ⟨3/10, 666⟩
  | .lr1riskslim2 => ⟨3/10, 666⟩

/-- The test-set row indices a deterministic splitter `f` (a function of the
row count, the test fraction and the seed) selects for a variant's call. -/
def testRowIndices (f : ℕ → ℚ → ℕ → List ℕ) (v : Variant) (nrows : ℕ) : List ℕ :=
  f nrows (splitCall v).testSize (splitCall v).randomState

/-! ### `riskslim_in_use.run` configuration (`riskslim_in_use.py` 25-48) -/

/-- `max_coefficient = 10` (`riskslim_in_use.py` 26). -/
def max_coefficient : ℤ := 10

/-- `max_L0_value = len(pd.read_csv(file_path).columns) - 1`
(`riskslim_in_use.py` 27), as a function of the column count of the CSV. -/
def max_L0_value (ncols : ℕ) : ℤ := (ncols : ℤ) - 1

/-- Modelled from the spec: the vendored `riskslim.CoefficientSet`
constructor (the `riskslim` package is not part of this repository's own
sources) called with scalar bounds and `customSingleBoundary = False`
"configures CoefficientSet bounds" uniformly: every variable name receives
the same pair (lb, ub).  The result is the per-variable (lb, ub) table. -/
def coefficientSet (variable_names : List String) (lb ub : ℤ) :
    List (String × ℤ × ℤ) :=
  variable_names.map (fun v => (v, lb, ub))

/-- The `CoefficientSet` built by `riskslim_in_use.run` (`riskslim_in_use.py`
40): `lb = -max_coefficient`, `ub = max_coefficient`. -/
def riskslimRunCoefSet (variable_names : List String) : List (String × ℤ × ℤ) :=
  coefficientSet variable_names (-max_coefficient) max_coefficient

/-- The `constraints` dictionary passed to `riskslim.run_lattice_cpa`
(`riskslim_in_use.py` 44-48), keyed in insertion order:
`L0_min = 0`, `L0_max = max_L0_value`. -/
def riskslimRunConstraints (ncols : ℕ) : ℤ × ℤ :=
  (0, max_L0_value ncols)

/-! ### Effect trace of `riskslim_in_use.run` (claim C8)

`run` is embedded as the ordered list of its observable effects together
with the exception it raises, if any.  With `file_path = None` the body
prints the opening banner and immediately raises (`riskslim_in_use.py`
13-15); everything else (reading CSVs, `CoefficientSet`, the solver call)
happens only on the non-`None` branch. -/

inductive RsEffect where
  | printMsg (s : String)
  | readCsvFile (path : String)
  | loadDataFromCsv (path : String)
  | trainTestSplitEff (testSize : ℚ) (randomState : ℕ)
  | buildCoefficientSet
  | updateInterceptBounds
  | runLatticeCpa
  | printModel
deriving DecidableEq, Repr

def rsBanner : String := "===========================RISKSLIM开始============================"

def riskslimRunTrace (file_path : Option String) : List RsEffect × Option String :=
  match file_path with
  | none => ([.printMsg rsBanner], some "文件名不能为空")
  | some path =>
    ([.printMsg rsBanner,
      .readCsvFile path,
      .loadDataFromCsv path,
      .trainTestSplitEff (3/10) 666,
      .buildCoefficientSet,
      .updateInterceptBounds,
      .runLatticeCpa,
      .printModel], none)

/-! ### Prediction thresholding (claim C9)

`riskslim_in_use.py` 93-98 and `LR_1_RiskSLIM_2.py` 71-74 both compute
`pred_y_prob = sigmoid(score)` and then set `pred_y[prob < 0.5] = -1`,
`pred_y[prob >= 0.5] = 1` on an all-zero vector.  The two boolean masks
partition the entries, so every entry is assigned exactly once; this
assignment semantics is captured by the relation `predLabelRel`. -/

noncomputable def sigmoid (x : ℝ) : ℝ :=
  1.0 / (1.0 + Real.exp (-x))

/-- `y` is the label the masked assignment gives an entry whose
probability is `p`. -/
def predLabelRel (p : ℝ) (y : ℤ) : Prop :=
  (p < 1/2 ∧ y = -1) ∨ (¬p < 1/2 ∧ y = 1)

/-- `np.dot` of a data row with the solution vector
(`pred_score = np.dot(test_X, model_info['solution'])`). -/
def dotProd (x w : List ℝ) : ℝ :=
  (x.zip w).foldl (fun acc p => acc + p.1 * p.2) 0

/-! ### First layer of `original_two_layer_model.run`
(`original_two_layer_model.py` 22-48)

For each subscale (a Python dict iterated in insertion order, modelled as an
association list) the loop collects `col` by extending it with
`generateColNames(var, len(var_split_list[var]))` for each variable of the
subscale, fits one `LogisticRegression` on `train_X[col]` (recorded in the
dict `subscales_lr`), and appends one probability column named after the
subscale to `subscale_prob_train` (`DataFrame(columns=[subscale])` when the
frame is still empty, `pd.concat(..., axis=1)` otherwise).
`(var_split_list.lookup var).getD []` stands for `var_split_list[var]`,
which in Python raises `KeyError` unless the variable has an entry. -/

def pyDictInsert {α : Type} (d : List (String × α)) (k : String) (v : α) :
    List (String × α) :=
  if (d.lookup k).isSome then
    d.map (fun p => if p.1 = k then (k, v) else p)
  else d ++ [(k, v)]

def subscaleCol (var_split_list : List (String × List Division))
    (vars : List String) : List String :=
  vars.foldl
    (fun acc var => acc ++ generateColNames var ((var_split_list.lookup var).getD []).length)
    []

structure FirstLayerState where
  /-- `subscales_lr`: for each fitted model, the feature columns it was fit on -/
  subscalesLr : List (String × List String)
  /-- the column names of `subscale_prob_train` -/
  probCols : List String
deriving DecidableEq, Repr

def firstLayerStep (var_split_list : List (String × List Division))
    (st : FirstLayerState) (s : String × List String) : FirstLayerState :=
  { subscalesLr := pyDictInsert st.subscalesLr s.1 (subscaleCol var_split_list s.2)
    probCols := if st.probCols.isEmpty then [s.1] else st.probCols ++ [s.1] }

def firstLayer (subscales : List (String × List String))
    (var_split_list : List (String × List Division)) : FirstLayerState :=
  subscales.foldl (firstLayerStep var_split_list) ⟨[], []⟩

/-! ### XML configuration parsing (`algorithm_compare.py` 203-217)

`xml.dom.minidom` document trees, restricted to element and text nodes.
`getElementsByTagName` returns all *descendant* elements with the given tag
in document (pre-order) order, the node itself excluded. -/

inductive XmlNode where
  | elem (tag : String) (attrs : List (String × String)) (children : List XmlNode)
  | text (data : String)

/-- Descendants-or-self with the given tag, in document order. -/
def descElems (tag : String) : XmlNode → List XmlNode
  | .text _ => []
  | .elem t a ch =>
    (if t = tag then [XmlNode.elem t a ch] else []) ++
      (ch.attach.map (fun c => descElems tag c.1)).flatten
decreasing_by
  have h := List.sizeOf_lt_of_mem c.2
  simp only [XmlNode.elem.sizeOf_spec]
  omega

/-- `node.getElementsByTagName(tag)`: matching descendants, self excluded. -/
def getElementsByTagName (tag : String) : XmlNode → List XmlNode
  | .text _ => []
  | .elem _ _ ch => (ch.attach.map (fun c => descElems tag c.1)).flatten

/-- `node.nodeName` for an element node. -/
def nodeName : XmlNode → String
  | .elem t _ _ => t
  | .text _ => "#text"

/-- `element.getAttribute(name)` (minidom returns `""` when absent). -/
def getAttribute (name : String) : XmlNode → String
  | .elem _ attrs _ => (attrs.lookup name).getD ""
  | .text _ => ""

/-- `var.childNodes[0].data`: the character data of the first child.
Python raises when there is no first child or it is not character data;
the claims only concern configurations where it is, and `getD ""` stands
for the defined case. -/
def firstChildData : XmlNode → Option String
  | .elem _ _ (XmlNode.text s :: _) => some s
  | _ => none

/-- The variable names one `<subscale>` element contributes:
`[var.childNodes[0].data for var in sub.getElementsByTagName("var")]`. -/
def subVarTexts (sub : XmlNode) : List String :=
  (getElementsByTagName "var" sub).map (fun v => (firstChildData v).getD "")

/-- Claim-side reading for C7, for comparison with the code: the text
contents of the `<var>` *children* (direct children only) of a subscale
element, in document order. -/
def varChildrenTexts (sub : XmlNode) : List String :=
  match sub with
  | .elem _ _ ch =>
    (ch.filter (fun c => decide (nodeName c = "var"))).map
      (fun v => (firstChildData v).getD "")
  | .text _ => []

/-- The subscale-reading loop: for each `sub`, append its variable names to
`var_all` and store them in the dict `subscales` under the `name` attribute. -/
def parseSubsLoop (subs : List XmlNode) :
    List (String × List String) × List String :=
  subs.foldl
    (fun acc sub =>
      (pyDictInsert acc.1 (getAttribute "name" sub) (subVarTexts sub),
       acc.2 ++ subVarTexts sub))
    ([], [])

/-- `list(set(var_all).difference(var_to_be_bin))`, as the set it denotes
(Python materialises it into a list in unspecified hash order). -/
def pySetDiff (a b : List String) : Finset String :=
  a.toFinset \ b.toFinset

/-- The whole config-parsing block: guard `rootNode.nodeName == "root"`,
run the subscale loop on `rootNode.getElementsByTagName("subscale")`, then
compute `var_not_to_be_bin`.  Returns `(subscales, var_all, var_not_to_be_bin)`. -/
def parseConfig (rootNode : XmlNode) (var_to_be_bin : List String) :
    List (String × List String) × List String × Finset String :=
  let p := if nodeName rootNode = "root"
    then parseSubsLoop (getElementsByTagName "subscale" rootNode)
    else ([], [])
  (p.1, p.2, pySetDiff p.2 var_to_be_bin)

/-! ### `generateOneHotByList` (`algorithm_compare.py` 117-154)

Embedded at the level of the columns of the written CSV: `data[list]`
raises (`KeyError`, re-raised as `Exception`) when some listed variable is
not a column of the raw dataset — before any output exists; otherwise the
loop appends, for each listed variable that has an entry in
`var_split_list`, the block `generateColNames(var, len(entry))` to
`dataframe_final` (variables without an entry are skipped), and the frame
is written only at the end. -/

def oneHotErrMsg : String := "配置文件中的变量不能在原数据集中找到，检查subscale.xml中的变量"

def generateOneHotByList (list : List String)
    (var_split_list : List (String × List Division)) (rawCols : List String) :
    Except String (List String) :=
  if list.all (fun var => rawCols.contains var) then
    .ok (list.foldl
      (fun acc var =>
        match var_split_list.lookup var with
        | some cur_split_list => acc ++ generateColNames var cur_split_list.length
        | none => acc)
      [])
  else .error oneHotErrMsg

/-! ## Theorems -/

/-- Claim C4: every train/test split performed by any model variant (the
plain LR baseline, the original two-layer model, the RiskSLIM wrapper and
the LR-then-RiskSLIM variant) uses `test_size = 0.3` and
`random_state = 666`, so for any deterministic splitter — a function of the
row count and those two parameters — all variants, and any two runs, select
identical test-set row indices on the same input rows. -/
theorem splitCall_deterministic :
    (∀ v : Variant, splitCall v = ⟨3/10, 666⟩) ∧
    ∀ (f : ℕ → ℚ → ℕ → List ℕ) (nrows : ℕ) (v₁ v₂ : Variant),
      testRowIndices f v₁ nrows = testRowIndices f v₂ nrows := by
  refine ⟨fun v => ?_, fun f nrows v₁ v₂ => ?_⟩
  · cases v <;> rfl
  · cases v₁ <;> cases v₂ <;> rfl

/-- Claim C5: for every input CSV, `riskslim_in_use.run` builds a
`CoefficientSet` giving every coefficient the lower bound -10 and the upper
bound 10, and passes `run_lattice_cpa` a constraints dictionary with
`L0_min = 0` and `L0_max` equal to the CSV's column count minus one. -/
theorem riskslimRun_config :
    (∀ (names : List String) (p : String × ℤ × ℤ),
      p ∈ riskslimRunCoefSet names → p.2.1 = -10 ∧ p.2.2 = 10) ∧
    (∀ names : List String, (riskslimRunCoefSet names).map Prod.fst = names) ∧
    ∀ ncols : ℕ, riskslimRunConstraints ncols = (0, (ncols : ℤ) - 1) := by
  refine ⟨fun names p hp => ?_, fun names => ?_, fun ncols => rfl⟩
  · simp only [riskslimRunCoefSet, coefficientSet, max_coefficient, List.mem_map] at hp
    obtain ⟨v, -, rfl⟩ := hp
    exact ⟨rfl, rfl⟩
  · induction names with
    | nil => rfl
    | cons a t ih => simpa [riskslimRunCoefSet, coefficientSet] using ih

/-- Witness for `riskslimRun_config` at a concrete coefficient set. -/
theorem riskslimRun_config_witness :
    (("x", (-10 : ℤ), (10 : ℤ)).2.1 = -10 ∧ ("x", (-10 : ℤ), (10 : ℤ)).2.2 = 10) ∧
    riskslimRunConstraints 24 = (0, 23) := by
  refine ⟨riskslimRun_config.1 ["x"] _ ?_, ?_⟩
  · simp [riskslimRunCoefSet, coefficientSet, max_coefficient]
  · have h := riskslimRun_config.2.2 24
    simpa using h

/-- Claim C8: called with `file_path = None`, `riskslim_in_use.run` raises
before reading any file, building any coefficient set, or invoking the
solver: its trace is exactly the opening banner print followed by the
exception, and every effect before the raise is a print. -/
theorem riskslimRun_none_raises :
    riskslimRunTrace none = ([.printMsg rsBanner], some "文件名不能为空") ∧
    ∀ e ∈ (riskslimRunTrace none).1,
      (∀ p, e ≠ .readCsvFile p) ∧ (∀ p, e ≠ .loadDataFromCsv p) ∧
      e ≠ .buildCoefficientSet ∧ e ≠ .updateInterceptBounds ∧
      e ≠ .runLatticeCpa ∧ ∃ s, e = .printMsg s := by
  refine ⟨rfl, fun e he => ?_⟩
  simp only [riskslimRunTrace, List.mem_singleton] at he
  subst he
  exact ⟨fun p => by simp, fun p => by simp, by simp, by simp, by simp, rsBanner, rfl⟩

/-- Witness for `riskslimRun_none_raises` at the banner effect. -/
theorem riskslimRun_none_raises_witness :
    (∀ p, RsEffect.printMsg rsBanner ≠ .readCsvFile p) ∧
    (∀ p, RsEffect.printMsg rsBanner ≠ .loadDataFromCsv p) ∧
    RsEffect.printMsg rsBanner ≠ .buildCoefficientSet ∧
    RsEffect.printMsg rsBanner ≠ .updateInterceptBounds ∧
    RsEffect.printMsg rsBanner ≠ .runLatticeCpa ∧
    ∃ s, RsEffect.printMsg rsBanner = .printMsg s :=
  riskslimRun_none_raises.2 (.printMsg rsBanner) (by simp [riskslimRunTrace])

/-- Any division in the tail part `mkSplitListGo prev rest` of a sorted split
list only contains values strictly above `prev`. -/
theorem divContains_mkSplitListGo_gt {v prev : ℚ} {rest : List ℚ}
    (hch : List.Chain' (· < ·) (prev :: rest)) {d : Division}
    (hd : d ∈ mkSplitListGo prev rest) (hcv : divContains d v) : prev < v := by
  induction rest generalizing prev with
  | nil =>
    simp only [mkSplitListGo, List.mem_singleton] at hd
    subst hd
    exact hcv
  | cons x xs ih =>
    simp only [mkSplitListGo, List.mem_cons] at hd
    rcases hd with rfl | hd
    · exact hcv.1
    · have hpx : prev < x := (List.chain'_cons.mp hch).1
      exact hpx.trans (ih (List.chain'_cons.mp hch).2 hd)

/-- Scanning the tail part of a sorted split list from index offset `k`, with
`v` strictly above `prev`: the scan returns the unique containing interval. -/
theorem checkWhichDivisionAux_mkSplitListGo {v prev : ℚ} {rest : List ℚ}
    (hch : List.Chain' (· < ·) (prev :: rest)) (hv : prev < v) :
    ∀ k : ℕ, ∃ i, ∃ hi : i < (mkSplitListGo prev rest).length,
      checkWhichDivisionAux (mkSplitListGo prev rest) v k = some (k + i + 1) ∧
      divContains ((mkSplitListGo prev rest).get ⟨i, hi⟩) v ∧
      ∀ j, ∀ hj : j < (mkSplitListGo prev rest).length,
        divContains ((mkSplitListGo prev rest).get ⟨j, hj⟩) v → j = i := by
  induction rest generalizing prev with
  | nil =>
    intro k
    refine ⟨0, by simp [mkSplitListGo], ?_, ?_, ?_⟩
    · simp [mkSplitListGo, checkWhichDivisionAux, divContains, hv]
    · simpa [mkSplitListGo, divContains] using hv
    · intro j hj _
      simp only [mkSplitListGo, List.length_singleton] at hj
      omega
  | cons x xs ih =>
    intro k
    have hch' : List.Chain' (· < ·) (x :: xs) := (List.chain'_cons.mp hch).2
    by_cases hvx : v ≤ x
    · refine ⟨0, by simp [mkSplitListGo], ?_, ?_, ?_⟩
      · simp [mkSplitListGo, checkWhichDivisionAux, divContains, hv, hvx]
      · exact ⟨hv, hvx⟩
      · intro j hj hcont
        match j with
        | 0 => rfl
        | j + 1 =>
          exfalso
          simp only [mkSplitListGo, List.length_cons, add_lt_add_iff_right] at hj
          have hmem : (mkSplitListGo x xs).get ⟨j, hj⟩ ∈ mkSplitListGo x xs :=
            List.get_mem _ _ _
          have := divContains_mkSplitListGo_gt hch' hmem hcont
          exact absurd hvx (not_le.mpr this)
    · push_neg at hvx
      obtain ⟨i, hi, heq, hcont, huniq⟩ := ih hch' hvx (k + 1)
      refine ⟨i + 1, by simpa [mkSplitListGo] using Nat.succ_lt_succ hi, ?_, ?_, ?_⟩
      · have hnc : ¬divContains (Division.middleDiv prev x) v := fun h => absurd h.2 (not_le.mpr hvx)
        simp only [mkSplitListGo, checkWhichDivisionAux, hnc, if_false]
        rw [heq]
        congr 1
        omega
      · simpa [mkSplitListGo] using hcont
      · intro j hj hcontj
        match j with
        | 0 =>
          exfalso
          exact absurd (by simpa [mkSplitListGo, divContains] using hcontj :
            prev < v ∧ v ≤ x).2 (not_le.mpr hvx)
        | j + 1 =>
          have hj' : j < (mkSplitListGo x xs).length := by
            simpa [mkSplitListGo] using hj
          have := huniq j hj' (by simpa [mkSplitListGo] using hcontj)
          omega

/-- Claim C2: for every well-formed split list over strictly increasing
breakpoints — `(-INF,b₀]`, `(b₀,b₁]`, …, `(b_{k-1},+INF)` — and every value
`v`, `checkWhichDivision` returns `i + 1` for the unique 0-based interval
index `i` containing `v`, where the first interval means `v ≤ b₀`, a middle
interval `(a,b]` means `a < v ≤ b`, and the last means `v > b_{k-1}`. -/
theorem checkWhichDivision_unique_interval (b : ℚ) (rest : List ℚ)
    (hch : List.Chain' (· < ·) (b :: rest)) (v : ℚ) :
    ∃ i, ∃ hi : i < (mkSplitList (b :: rest)).length,
      checkWhichDivision (mkSplitList (b :: rest)) v = some (i + 1) ∧
      divContains ((mkSplitList (b :: rest)).get ⟨i, hi⟩) v ∧
      ∀ j, ∀ hj : j < (mkSplitList (b :: rest)).length,
        divContains ((mkSplitList (b :: rest)).get ⟨j, hj⟩) v → j = i := by
  by_cases hvb : v ≤ b
  · refine ⟨0, by simp [mkSplitList], ?_, ?_, ?_⟩
    · simp [mkSplitList, checkWhichDivision, checkWhichDivisionAux, divContains, hvb]
    · simpa [mkSplitList, divContains] using hvb
    · intro j hj hcont
      match j with
      | 0 => rfl
      | j + 1 =>
        exfalso
        simp only [mkSplitList, List.length_cons, add_lt_add_iff_right] at hj
        have hmem : (mkSplitListGo b rest).get ⟨j, hj⟩ ∈ mkSplitListGo b rest :=
          List.get_mem _ _ _
        have := divContains_mkSplitListGo_gt hch hmem
          (by simpa [mkSplitList] using hcont)
        exact absurd hvb (not_le.mpr this)
  · push_neg at hvb
    obtain ⟨i, hi, heq, hcont, huniq⟩ := checkWhichDivisionAux_mkSplitListGo hch hvb 1
    refine ⟨i + 1, by simpa [mkSplitList] using Nat.succ_lt_succ hi, ?_, ?_, ?_⟩
    · have hnc : ¬divContains (Division.firstDiv b) v := not_le.mpr hvb
      simp only [mkSplitList, checkWhichDivision, checkWhichDivisionAux, hnc, if_false]
      rw [heq]
      exact congrArg some (by omega)
    · simpa [mkSplitList] using hcont
    · intro j hj hcontj
      match j with
      | 0 => exact absurd (by simpa [mkSplitList, divContains] using hcontj) (not_le.mpr hvb)
      | j + 1 =>
        have hj' : j < (mkSplitListGo b rest).length := by
          simpa [mkSplitList] using hj
        have := huniq j hj' (by simpa [mkSplitList] using hcontj)
        omega

/-- Witness for `checkWhichDivision_unique_interval` on the split list
`['(-INF,1]', '(1,3]', '(3,+INF)']` at `v = 2` (the middle interval). -/
theorem checkWhichDivision_unique_interval_witness :
    ∃ i, ∃ hi : i < (mkSplitList [1, 3]).length,
      checkWhichDivision (mkSplitList [1, 3]) 2 = some (i + 1) ∧
      divContains ((mkSplitList [1, 3]).get ⟨i, hi⟩) 2 ∧
      ∀ j, ∀ hj : j < (mkSplitList [1, 3]).length,
        divContains ((mkSplitList [1, 3]).get ⟨j, hj⟩) 2 → j = i :=
  checkWhichDivision_unique_interval 1 [3] (by norm_num [List.chain'_cons]) 2

/-- The index lists the `printPerformance` loop accumulates are exactly the
filters of `range m` by the four (pairwise exclusive) conditions. -/
theorem confusionListsGo_eq_filters (test_y pred_y : List ℤ) (m : ℕ) :
    confusionListsGo test_y pred_y m =
      ((List.range m).filter (fun i => decide (pred_y.getD i 0 = 1 ∧ test_y.getD i 0 = 1)),
       (List.range m).filter (fun i => decide (pred_y.getD i 0 = -1 ∧ test_y.getD i 0 = 1)),
       (List.range m).filter (fun i => decide (pred_y.getD i 0 = 1 ∧ test_y.getD i 0 = -1)),
       (List.range m).filter (fun i => decide (pred_y.getD i 0 = -1 ∧ test_y.getD i 0 = -1))) := by
  induction m with
  | zero => rfl
  | succ n ih =>
    have hsplit : ∀ q : ℕ → Bool, (List.range (n + 1)).filter q =
        (List.range n).filter q ++ [n].filter q := by
      intro q
      rw [List.range_succ, List.filter_append]
    have hsing : ∀ q : ℕ → Bool, [n].filter q = if q n then [n] else [] := by
      intro q
      rw [List.filter_cons, List.filter_nil]
    simp only [confusionListsGo, ih, hsplit, hsing]
    by_cases c1 : pred_y.getD n 0 = 1 ∧ test_y.getD n 0 = 1
    · rw [if_pos c1]
      have h1 := c1.1
      have h2 := c1.2
      rw [List.getD_eq_getElem?_getD] at h1 h2
      refine Prod.ext ?_ (Prod.ext ?_ (Prod.ext ?_ ?_)) <;> simp [h1, h2]
    · rw [if_neg c1]
      by_cases c2 : pred_y.getD n 0 = -1 ∧ test_y.getD n 0 = 1
      · rw [if_pos c2]
        have h1 := c2.1
        have h2 := c2.2
        rw [List.getD_eq_getElem?_getD] at h1 h2
        refine Prod.ext ?_ (Prod.ext ?_ (Prod.ext ?_ ?_)) <;> simp [h1, h2]
      · rw [if_neg c2]
        by_cases c3 : pred_y.getD n 0 = 1 ∧ test_y.getD n 0 = -1
        · rw [if_pos c3]
          have h1 := c3.1
          have h2 := c3.2
          rw [List.getD_eq_getElem?_getD] at h1 h2
          refine Prod.ext ?_ (Prod.ext ?_ (Prod.ext ?_ ?_)) <;> simp [h1, h2]
        · rw [if_neg c3]
          by_cases c4 : pred_y.getD n 0 = -1 ∧ test_y.getD n 0 = -1
          · rw [if_pos c4]
            have h1 := c4.1
            have h2 := c4.2
            rw [List.getD_eq_getElem?_getD] at h1 h2
            refine Prod.ext ?_ (Prod.ext ?_ (Prod.ext ?_ ?_)) <;> simp [h1, h2]
          · rw [if_neg c4]
            rw [List.getD_eq_getElem?_getD, List.getD_eq_getElem?_getD] at c1 c2 c3 c4
            refine Prod.ext ?_ (Prod.ext ?_ (Prod.ext ?_ ?_)) <;> simp [c1, c2, c3, c4]

/-- Claim C3: for equal-length vectors with entries in `{-1, +1}` having at
least one true positive, `printPerformance` reports
`accuracy = (|TP|+|TN|)/(|TP|+|FP|+|TN|+|FN|)`, `precision = |TP|/(|TP|+|FP|)`,
`recall = |TP|/(|TP|+|FN|)` and `F1 = 2*precision*recall/(precision+recall)`,
where TP, FN, FP, TN are the index sets with `(pred, true)` equal to
`(1,1)`, `(-1,1)`, `(1,-1)`, `(-1,-1)`; indeed the loop's lists are exactly
those index sets. -/
theorem printPerformance_formulas (test_y pred_y : List ℤ)
    (hlen : test_y.length = pred_y.length)
    (hvals : ∀ i, i < pred_y.length →
      (pred_y.getD i 0 = 1 ∨ pred_y.getD i 0 = -1) ∧
      (test_y.getD i 0 = 1 ∨ test_y.getD i 0 = -1))
    (hTP : ∃ i, i < pred_y.length ∧ pred_y.getD i 0 = 1 ∧ test_y.getD i 0 = 1) :
    confusionLists test_y pred_y =
      (specTP test_y pred_y, specFN test_y pred_y,
       specFP test_y pred_y, specTN test_y pred_y) ∧
    printPerformance test_y pred_y =
      ((((specTP test_y pred_y).length : ℚ) + ((specTN test_y pred_y).length : ℚ)) /
         (((specTP test_y pred_y).length : ℚ) + ((specFP test_y pred_y).length : ℚ) +
          ((specTN test_y pred_y).length : ℚ) + ((specFN test_y pred_y).length : ℚ)),
       ((specTP test_y pred_y).length : ℚ) /
         (((specTP test_y pred_y).length : ℚ) + ((specFP test_y pred_y).length : ℚ)),
       ((specTP test_y pred_y).length : ℚ) /
         (((specTP test_y pred_y).length : ℚ) + ((specFN test_y pred_y).length : ℚ)),
       2 * ((((specTP test_y pred_y).length : ℚ) /
              (((specTP test_y pred_y).length : ℚ) + ((specFP test_y pred_y).length : ℚ)) *
             (((specTP test_y pred_y).length : ℚ) /
              (((specTP test_y pred_y).length : ℚ) + ((specFN test_y pred_y).length : ℚ)))) /
            (((specTP test_y pred_y).length : ℚ) /
              (((specTP test_y pred_y).length : ℚ) + ((specFP test_y pred_y).length : ℚ)) +
             ((specTP test_y pred_y).length : ℚ) /
              (((specTP test_y pred_y).length : ℚ) + ((specFN test_y pred_y).length : ℚ))))) := by
  have hconf : confusionLists test_y pred_y =
      (specTP test_y pred_y, specFN test_y pred_y,
       specFP test_y pred_y, specTN test_y pred_y) :=
    confusionListsGo_eq_filters test_y pred_y pred_y.length
  exact ⟨hconf, by simp only [printPerformance, hconf]⟩

/-- Witness for `printPerformance_formulas` on
`test_y = [1,1,-1,-1]`, `pred_y = [1,-1,1,-1]`. -/
theorem printPerformance_formulas_witness :
    confusionLists [1, 1, -1, -1] [1, -1, 1, -1] =
      (specTP [1, 1, -1, -1] [1, -1, 1, -1], specFN [1, 1, -1, -1] [1, -1, 1, -1],
       specFP [1, 1, -1, -1] [1, -1, 1, -1], specTN [1, 1, -1, -1] [1, -1, 1, -1]) ∧
    printPerformance [1, 1, -1, -1] [1, -1, 1, -1] =
      ((((specTP [1, 1, -1, -1] [1, -1, 1, -1]).length : ℚ) +
          ((specTN [1, 1, -1, -1] [1, -1, 1, -1]).length : ℚ)) /
         (((specTP [1, 1, -1, -1] [1, -1, 1, -1]).length : ℚ) +
          ((specFP [1, 1, -1, -1] [1, -1, 1, -1]).length : ℚ) +
          ((specTN [1, 1, -1, -1] [1, -1, 1, -1]).length : ℚ) +
          ((specFN [1, 1, -1, -1] [1, -1, 1, -1]).length : ℚ)),
       ((specTP [1, 1, -1, -1] [1, -1, 1, -1]).length : ℚ) /
         (((specTP [1, 1, -1, -1] [1, -1, 1, -1]).length : ℚ) +
          ((specFP [1, 1, -1, -1] [1, -1, 1, -1]).length : ℚ)),
       ((specTP [1, 1, -1, -1] [1, -1, 1, -1]).length : ℚ) /
         (((specTP [1, 1, -1, -1] [1, -1, 1, -1]).length : ℚ) +
          ((specFN [1, 1, -1, -1] [1, -1, 1, -1]).length : ℚ)),
       2 * ((((specTP [1, 1, -1, -1] [1, -1, 1, -1]).length : ℚ) /
              (((specTP [1, 1, -1, -1] [1, -1, 1, -1]).length : ℚ) +
               ((specFP [1, 1, -1, -1] [1, -1, 1, -1]).length : ℚ)) *
             (((specTP [1, 1, -1, -1] [1, -1, 1, -1]).length : ℚ) /
              (((specTP [1, 1, -1, -1] [1, -1, 1, -1]).length : ℚ) +
               ((specFN [1, 1, -1, -1] [1, -1, 1, -1]).length : ℚ)))) /
            (((specTP [1, 1, -1, -1] [1, -1, 1, -1]).length : ℚ) /
              (((specTP [1, 1, -1, -1] [1, -1, 1, -1]).length : ℚ) +
               ((specFP [1, 1, -1, -1] [1, -1, 1, -1]).length : ℚ)) +
             ((specTP [1, 1, -1, -1] [1, -1, 1, -1]).length : ℚ) /
              (((specTP [1, 1, -1, -1] [1, -1, 1, -1]).length : ℚ) +
               ((specFN [1, 1, -1, -1] [1, -1, 1, -1]).length : ℚ))))) :=
  printPerformance_formulas [1, 1, -1, -1] [1, -1, 1, -1]
    (by decide) (by decide) ⟨0, by decide⟩

/-- Association-list lookup distributes over append. -/
theorem lookup_append_or {α : Type} (l₁ l₂ : List (String × α)) (k : String) :
    ((l₁ ++ l₂).lookup k) = ((l₁.lookup k).or (l₂.lookup k)) := by
  induction l₁ with
  | nil => simp
  | cons a t ih => cases h : (k == a.1) <;> simp [List.lookup, h, ih]

/-- A left fold that appends a block per element is the flat map of the
blocks. -/
theorem foldl_append_eq_flatMap {α β : Type} (f : α → List β) :
    ∀ (l : List α) (acc : List β),
      l.foldl (fun acc a => acc ++ f a) acc = acc ++ l.flatMap f := by
  intro l
  induction l with
  | nil => intro acc; simp
  | cons a t ih => intro acc; simp [List.foldl_cons, ih, List.flatMap_cons]

/-- The one-hot column fold of `generateOneHotByList` is the flat map of the
per-variable blocks, with an empty block for a variable without a
breakpoint entry. -/
theorem oneHotFoldl_eq_flatMap (var_split_list : List (String × List Division)) :
    ∀ (l : List String) (acc : List String),
      l.foldl (fun acc var =>
        match var_split_list.lookup var with
        | some cur_split_list => acc ++ generateColNames var cur_split_list.length
        | none => acc) acc
      = acc ++ l.flatMap (fun var =>
          match var_split_list.lookup var with
          | some cur_split_list => generateColNames var cur_split_list.length
          | none => []) := by
  intro l
  induction l with
  | nil => intro acc; simp
  | cons v t ih =>
    intro acc
    cases h : var_split_list.lookup v with
    | none => simp [List.foldl_cons, h, ih, List.flatMap_cons]
    | some cur => simp [List.foldl_cons, h, ih, List.flatMap_cons]

/-- Claim C10: `generateOneHotByList` writes columns only for listed
variables that have a breakpoint entry — a listed variable without one
contributes no columns at all — and a listed variable that is not a column
of the raw dataset causes an exception before any output is written. -/
theorem generateOneHotByList_columns (list : List String)
    (var_split_list : List (String × List Division)) (rawCols : List String) :
    ((∀ v ∈ list, v ∈ rawCols) →
      generateOneHotByList list var_split_list rawCols =
        .ok (list.flatMap (fun var =>
          match var_split_list.lookup var with
          | some cur_split_list => generateColNames var cur_split_list.length
          | none => []))) ∧
    ((∃ v ∈ list, v ∉ rawCols) →
      generateOneHotByList list var_split_list rawCols = .error oneHotErrMsg) := by
  constructor
  · intro h
    have hall : list.all (fun var => rawCols.contains var) = true := by
      rw [List.all_eq_true]
      intro v hv
      simpa using h v hv
    rw [generateOneHotByList, if_pos hall, oneHotFoldl_eq_flatMap var_split_list list []]
    rfl
  · rintro ⟨v, hv, hnot⟩
    have hall : ¬list.all (fun var => rawCols.contains var) = true := by
      rw [List.all_eq_true]
      intro h
      exact hnot (by simpa using h v hv)
    rw [generateOneHotByList, if_neg hall]

/-- Witness for `generateOneHotByList_columns`: variable `a` is binned into
2 intervals, variable `b` has no breakpoint entry and contributes nothing;
with `b` missing from the raw columns the call errors instead. -/
theorem generateOneHotByList_columns_witness :
    generateOneHotByList ["a", "b"] [("a", [.firstDiv 0, .lastDiv 0])] ["a", "b"] =
      .ok (["a", "b"].flatMap (fun var =>
        match ([("a", [Division.firstDiv 0, Division.lastDiv 0])]).lookup var with
        | some cur_split_list => generateColNames var cur_split_list.length
        | none => [])) ∧
    generateOneHotByList ["a", "b"] [("a", [.firstDiv 0, .lastDiv 0])] ["a"] =
      .error oneHotErrMsg :=
  ⟨(generateOneHotByList_columns ["a", "b"] [("a", [.firstDiv 0, .lastDiv 0])]
      ["a", "b"]).1 (by decide),
   (generateOneHotByList_columns ["a", "b"] [("a", [.firstDiv 0, .lastDiv 0])]
      ["a"]).2 ⟨"b", by decide, by decide⟩⟩

/-- Folding the first-layer loop from a state whose dict does not yet hold
any upcoming subscale name appends one fitted model and one probability
column per subscale, in iteration order. -/
theorem firstLayer_foldl (var_split_list : List (String × List Division)) :
    ∀ (subs : List (String × List String)) (st : FirstLayerState),
      (∀ s ∈ subs, st.subscalesLr.lookup s.1 = none) →
      (subs.map Prod.fst).Nodup →
      subs.foldl (firstLayerStep var_split_list) st =
        ⟨st.subscalesLr ++ subs.map (fun s => (s.1, subscaleCol var_split_list s.2)),
         st.probCols ++ subs.map Prod.fst⟩ := by
  intro subs
  induction subs with
  | nil => intro st _ _; simp
  | cons s0 t ih =>
    intro st hkeys hnodup
    have h0 : st.subscalesLr.lookup s0.1 = none := hkeys s0 (by simp)
    have hstep : firstLayerStep var_split_list st s0 =
        ⟨st.subscalesLr ++ [(s0.1, subscaleCol var_split_list s0.2)],
         st.probCols ++ [s0.1]⟩ := by
      rw [firstLayerStep]
      have : (st.subscalesLr.lookup s0.1).isSome = false := by rw [h0]; rfl
      rw [pyDictInsert, this]
      simp only [Bool.false_eq_true, if_false]
      by_cases he : st.probCols.isEmpty
      · rw [if_pos he]
        have : st.probCols = [] := List.isEmpty_iff.mp he
        rw [this]
        rfl
      · rw [if_neg he]
    rw [List.foldl_cons, hstep]
    have hkeys' : ∀ s ∈ t,
        (st.subscalesLr ++ [(s0.1, subscaleCol var_split_list s0.2)]).lookup s.1 = none := by
      intro s hs
      rw [lookup_append_or, hkeys s (by simp [hs])]
      have hne : s.1 ≠ s0.1 := by
        intro he
        have := (List.nodup_cons.mp hnodup).1
        exact this (he ▸ List.mem_map_of_mem Prod.fst hs)
      have hbeq : (s.1 == s0.1) = false := beq_eq_false_iff_ne.mpr hne
      simp [List.lookup, hbeq]
    have := ih ⟨st.subscalesLr ++ [(s0.1, subscaleCol var_split_list s0.2)],
                st.probCols ++ [s0.1]⟩ hkeys' (List.nodup_cons.mp hnodup).2
    rw [this]
    simp

/-- Claim C6: for every subscales mapping (distinct subscale names, as dict
keys are) and compatible `var_split_list`, the first layer of
`original_two_layer_model.run` fits exactly one `LogisticRegression` per
subscale — over exactly the one-hot columns generated from that subscale's
variables — and the assembled probability frame has exactly one column per
subscale, named after it, in subscale iteration order. -/
theorem firstLayer_one_model_per_subscale
    (subscales : List (String × List String))
    (var_split_list : List (String × List Division))
    (hnodup : (subscales.map Prod.fst).Nodup) :
    (firstLayer subscales var_split_list).subscalesLr =
      subscales.map (fun s => (s.1, subscaleCol var_split_list s.2)) ∧
    (firstLayer subscales var_split_list).probCols = subscales.map Prod.fst ∧
    ∀ s ∈ subscales, subscaleCol var_split_list s.2 =
      s.2.flatMap (fun var =>
        generateColNames var ((var_split_list.lookup var).getD []).length) := by
  have h := firstLayer_foldl var_split_list subscales ⟨[], []⟩
    (by intro s _; rfl) hnodup
  rw [firstLayer, h]
  refine ⟨by simp, by simp, fun s _ => ?_⟩
  rw [subscaleCol, foldl_append_eq_flatMap
    (fun var => generateColNames var ((var_split_list.lookup var).getD []).length) s.2 []]
  rfl

/-- Witness for `firstLayer_one_model_per_subscale` on two subscales. -/
theorem firstLayer_one_model_per_subscale_witness :
    (firstLayer [("s1", ["a"]), ("s2", ["b"])]
        [("a", [.firstDiv 0, .lastDiv 0])]).subscalesLr =
      [("s1", ["a"]), ("s2", ["b"])].map
        (fun s => (s.1, subscaleCol [("a", [Division.firstDiv 0, Division.lastDiv 0])] s.2)) ∧
    (firstLayer [("s1", ["a"]), ("s2", ["b"])]
        [("a", [.firstDiv 0, .lastDiv 0])]).probCols =
      [("s1", ["a"]), ("s2", ["b"])].map Prod.fst ∧
    ∀ s ∈ ([("s1", ["a"]), ("s2", ["b"])] : List (String × List String)),
      subscaleCol [("a", [Division.firstDiv 0, Division.lastDiv 0])] s.2 =
        s.2.flatMap (fun var =>
          generateColNames var
            ((([("a", [Division.firstDiv 0, Division.lastDiv 0])]).lookup var).getD []).length) :=
  firstLayer_one_model_per_subscale [("s1", ["a"]), ("s2", ["b"])]
    [("a", [.firstDiv 0, .lastDiv 0])] (by decide)

/-- The sigmoid reaches 1/2 exactly at nonnegative scores. -/
theorem sigmoid_ge_half_iff (x : ℝ) : 1/2 ≤ sigmoid x ↔ 0 ≤ x := by
  rw [sigmoid]
  have hone : (1.0 : ℝ) = 1 := by norm_num
  rw [hone]
  have hpos : (0 : ℝ) < 1 + Real.exp (-x) := by positivity
  rw [div_le_div_iff₀ (by norm_num) hpos]
  constructor
  · intro h
    have hle : Real.exp (-x) ≤ 1 := by linarith
    have := Real.exp_le_one_iff.mp hle
    linarith
  · intro h
    have hle : Real.exp (-x) ≤ 1 := Real.exp_le_one_iff.mpr (by linarith)
    linarith

/-- Claim C9: every predicted-label vector produced by the masked
thresholding in `riskslim_in_use.run` (and `LR_1_RiskSLIM_2.run`) has
entries only in `{-1, +1}`, and an entry is `+1` exactly when its
sigmoid-transformed score is at least `0.5` — equivalently, exactly when
the raw linear score is nonnegative. -/
theorem predLabel_sign (scores : List ℝ) (pred : List ℤ)
    (hrel : ∀ i, i < pred.length →
      predLabelRel (sigmoid (scores.getD i 0)) (pred.getD i 0)) :
    ∀ i, i < pred.length →
      (pred.getD i 0 = -1 ∨ pred.getD i 0 = 1) ∧
      (pred.getD i 0 = 1 ↔ 1/2 ≤ sigmoid (scores.getD i 0)) ∧
      (1/2 ≤ sigmoid (scores.getD i 0) ↔ 0 ≤ scores.getD i 0) := by
  intro i hi
  have h := hrel i hi
  rcases h with ⟨hlt, hy⟩ | ⟨hnlt, hy⟩
  · refine ⟨Or.inl hy, ?_, sigmoid_ge_half_iff _⟩
    rw [hy]
    constructor
    · intro h1
      exact absurd h1 (by norm_num)
    · intro hge
      exact absurd hlt (not_lt.mpr hge)
  · exact ⟨Or.inr hy, ⟨fun _ => not_lt.mp hnlt, fun _ => hy⟩, sigmoid_ge_half_iff _⟩

/-- Witness for `predLabel_sign` at score 0, label +1. -/
theorem predLabel_sign_witness :
    (([1] : List ℤ).getD 0 0 = -1 ∨ ([1] : List ℤ).getD 0 0 = 1) ∧
    (([1] : List ℤ).getD 0 0 = 1 ↔ 1/2 ≤ sigmoid (([0] : List ℝ).getD 0 0)) ∧
    (1/2 ≤ sigmoid (([0] : List ℝ).getD 0 0) ↔ 0 ≤ ([0] : List ℝ).getD 0 0) :=
  predLabel_sign [0] [1]
    (fun i hi => by
      have h1 : i = 0 := Nat.lt_one_iff.mp (by simpa using hi)
      subst h1
      refine Or.inr ⟨?_, rfl⟩
      have h0 : (([0] : List ℝ).getD 0 0) = 0 := rfl
      rw [h0, not_lt]
      exact (sigmoid_ge_half_iff 0).mpr le_rfl)
    0 (by norm_num)

/-- `find?` distributes over append through `Option.or`. -/
theorem find?_append_or {α : Type} (p : α → Bool) (l₁ l₂ : List α) :
    (l₁ ++ l₂).find? p = (l₁.find? p).or (l₂.find? p) := by
  induction l₁ with
  | nil => simp
  | cons a t ih => cases h : p a <;> simp [List.find?_cons, h, ih]

/-- Replacing the values stored under key `k` does not change lookups of
other keys. -/
theorem lookup_map_replace_ne {α : Type} (k : String) (v : α) :
    ∀ (d : List (String × α)) (name : String), name ≠ k →
      ((d.map (fun p => if p.1 = k then (k, v) else p)).lookup name) = d.lookup name := by
  intro d
  induction d with
  | nil => intro name _; rfl
  | cons a t ih =>
    intro name hne
    simp only [List.map_cons]
    by_cases ha : a.1 = k
    · rw [if_pos ha]
      have hb : (name == k) = false := beq_eq_false_iff_ne.mpr hne
      have hb2 : (name == a.1) = false := beq_eq_false_iff_ne.mpr (fun h => hne (ha ▸ h))
      simp [List.lookup, hb, hb2, ih name hne]
    · rw [if_neg ha]
      cases hb : (name == a.1) <;> simp [List.lookup, hb, ih name hne]

/-- Lookup after a Python dict insert: the inserted key now maps to the new
value, all other keys are unchanged. -/
theorem pyDictInsert_lookup {α : Type} (d : List (String × α)) (k : String)
    (v : α) (name : String) :
    ((pyDictInsert d k v).lookup name) = if name = k then some v else d.lookup name := by
  rw [pyDictInsert]
  by_cases hk : (d.lookup k).isSome
  · rw [if_pos hk]
    by_cases hname : name = k
    · subst hname
      obtain ⟨w, hw⟩ := Option.isSome_iff_exists.mp hk
      rw [if_pos rfl]
      clear hk
      induction d with
      | nil => simp [List.lookup] at hw
      | cons a t ih =>
        simp only [List.map_cons]
        by_cases ha : a.1 = name
        · rw [if_pos ha]
          simp [List.lookup]
        · rw [if_neg ha]
          have hb : (name == a.1) = false := beq_eq_false_iff_ne.mpr (fun h => ha h.symm)
          simp only [List.lookup, hb] at hw
          simp [List.lookup, hb, ih hw]
    · rw [if_neg hname]
      exact lookup_map_replace_ne k v d name hname
  · rw [if_neg hk]
    rw [lookup_append_or]
    by_cases hname : name = k
    · subst hname
      have : d.lookup name = none := Option.not_isSome_iff_eq_none.mp hk
      simp [this, List.lookup]
    · have hb : (name == k) = false := beq_eq_false_iff_ne.mpr hname
      rw [if_neg hname]
      have h1 : List.lookup name [(k, v)] = none := by simp [List.lookup, hb]
      rw [h1, Option.or_none]

/-- Folding Python dict inserts keyed by subscale name: the final lookup of
`name` is the value of the *last* subscale element carrying that name. -/
theorem foldl_pyDictInsert_lookup (key : XmlNode → String) (val : XmlNode → List String) :
    ∀ (subs : List XmlNode) (d : List (String × List String)) (name : String),
      ((subs.foldl (fun d sub => pyDictInsert d (key sub) (val sub)) d).lookup name)
      = ((subs.reverse.find? (fun sub => decide (key sub = name))).map val).or
          (d.lookup name) := by
  intro subs
  induction subs with
  | nil => intro d name; simp
  | cons s rest ih =>
    intro d name
    rw [List.foldl_cons, ih, pyDictInsert_lookup]
    rw [List.reverse_cons, find?_append_or]
    cases hf : rest.reverse.find? (fun sub => decide (key sub = name)) with
    | some x => simp [hf]
    | none =>
      by_cases hp : key s = name
      · have hps : name = key s := hp.symm
        simp [hf, List.find?_cons, hps]
      · have hne : ¬name = key s := fun h => hp h.symm
        simp [hf, List.find?_cons, hp, hne]

/-- The loop accumulates `var_all` as the concatenation of the per-subscale
variable lists, and builds the dict by repeated insert. -/
theorem parseSubsLoop_eq (subs : List XmlNode) :
    parseSubsLoop subs =
      (subs.foldl (fun d sub => pyDictInsert d (getAttribute "name" sub) (subVarTexts sub)) [],
       subs.flatMap subVarTexts) := by
  rw [parseSubsLoop]
  suffices h : ∀ (l : List XmlNode) (d : List (String × List String)) (va : List String),
      l.foldl (fun acc sub =>
        (pyDictInsert acc.1 (getAttribute "name" sub) (subVarTexts sub),
         acc.2 ++ subVarTexts sub)) (d, va)
      = (l.foldl (fun d sub => pyDictInsert d (getAttribute "name" sub) (subVarTexts sub)) d,
         va ++ l.flatMap subVarTexts) by
    rw [h subs ([] : List (String × List String)) ([] : List String)]
    simp
  intro l
  induction l with
  | nil => intro d va; simp
  | cons s rest ih => intro d va; simp [List.foldl_cons, ih, List.flatMap_cons]

/-- Counterexample to claim C7 as stated: in the configuration
`<root><subscale name="a"><group><var>x</var></group></subscale></root>`
the `<subscale>` element has no `<var>` *children* (only a descendant), yet
the driver maps `a` to `["x"]`, because `getElementsByTagName` collects
descendants. -/
theorem parseConfig_children_counterexample :
    (parseConfig
        (.elem "root" []
          [.elem "subscale" [("name", "a")]
            [.elem "group" [] [.elem "var" [] [.text "x"]]]]) []).1
      = [("a", ["x"])] ∧
    varChildrenTexts
        (.elem "subscale" [("name", "a")]
          [.elem "group" [] [.elem "var" [] [.text "x"]]]) = [] ∧
    (["x"] : List String) ≠ [] := by
  refine ⟨?_, ?_, by simp⟩
  · simp [parseConfig, nodeName, parseSubsLoop, getElementsByTagName, descElems,
      subVarTexts, pyDictInsert, getAttribute, firstChildData, List.lookup]
  · simp [varChildrenTexts, nodeName]

/-- Claim C7 as amended by the counterexample: for every configuration whose
document element is named `root`, the driver maps each subscale name to the
first-text-node contents of the *descendant* `<var>` elements (document
order) of the last `<subscale>` element bearing that name; `var_all` is the
concatenation of all subscale elements' variable lists in document order;
and `var_not_to_be_bin` is the set of names in `var_all` with no breakpoint
entry. -/
theorem parseConfig_spec (rootNode : XmlNode) (var_to_be_bin : List String)
    (hroot : nodeName rootNode = "root") :
    (∀ name : String,
      ((parseConfig rootNode var_to_be_bin).1.lookup name) =
        (((getElementsByTagName "subscale" rootNode).reverse.find?
            (fun sub => decide (getAttribute "name" sub = name))).map subVarTexts)) ∧
    (parseConfig rootNode var_to_be_bin).2.1 =
      (getElementsByTagName "subscale" rootNode).flatMap subVarTexts ∧
    ∀ x : String, x ∈ (parseConfig rootNode var_to_be_bin).2.2 ↔
      x ∈ (parseConfig rootNode var_to_be_bin).2.1 ∧ x ∉ var_to_be_bin := by
  have hif : (if nodeName rootNode = "root"
      then parseSubsLoop (getElementsByTagName "subscale" rootNode)
      else ([], [])) = parseSubsLoop (getElementsByTagName "subscale" rootNode) :=
    if_pos hroot
  have hpc : parseConfig rootNode var_to_be_bin =
      ((parseSubsLoop (getElementsByTagName "subscale" rootNode)).1,
       (parseSubsLoop (getElementsByTagName "subscale" rootNode)).2,
       pySetDiff (parseSubsLoop (getElementsByTagName "subscale" rootNode)).2
         var_to_be_bin) := by
    simp only [parseConfig, hif]
  have hps := parseSubsLoop_eq (getElementsByTagName "subscale" rootNode)
  refine ⟨fun name => ?_, ?_, fun x => ?_⟩
  · rw [hpc]
    show (((parseSubsLoop (getElementsByTagName "subscale" rootNode)).1).lookup name) = _
    rw [hps]
    show (((getElementsByTagName "subscale" rootNode).foldl
        (fun d sub => pyDictInsert d (getAttribute "name" sub) (subVarTexts sub))
        []).lookup name) = _
    rw [foldl_pyDictInsert_lookup (getAttribute "name") subVarTexts
      (getElementsByTagName "subscale" rootNode) [] name]
    rw [show (List.lookup name ([] : List (String × List String))) = none from rfl,
      Option.or_none]
  · rw [hpc]
    show ((parseSubsLoop (getElementsByTagName "subscale" rootNode)).2) = _
    rw [hps]
  · rw [hpc]
    show x ∈ pySetDiff (parseSubsLoop (getElementsByTagName "subscale" rootNode)).2
        var_to_be_bin ↔ _
    simp [pySetDiff]

/-- Witness for `parseConfig_spec` on a two-subscale configuration. -/
theorem parseConfig_spec_witness :
    (∀ name : String,
      ((parseConfig
          (.elem "root" []
            [.elem "subscale" [("name", "a")] [.elem "var" [] [.text "x"]],
             .elem "subscale" [("name", "b")] [.elem "var" [] [.text "y"]]])
          ["x"]).1.lookup name) =
        (((getElementsByTagName "subscale"
            (.elem "root" []
              [.elem "subscale" [("name", "a")] [.elem "var" [] [.text "x"]],
               .elem "subscale" [("name", "b")] [.elem "var" [] [.text "y"]]])).reverse.find?
            (fun sub => decide (getAttribute "name" sub = name))).map subVarTexts)) ∧
    (parseConfig
        (.elem "root" []
          [.elem "subscale" [("name", "a")] [.elem "var" [] [.text "x"]],
           .elem "subscale" [("name", "b")] [.elem "var" [] [.text "y"]]])
        ["x"]).2.1 =
      (getElementsByTagName "subscale"
        (.elem "root" []
          [.elem "subscale" [("name", "a")] [.elem "var" [] [.text "x"]],
           .elem "subscale" [("name", "b")] [.elem "var" [] [.text "y"]]])).flatMap
        subVarTexts ∧
    ∀ x : String,
      x ∈ (parseConfig
          (.elem "root" []
            [.elem "subscale" [("name", "a")] [.elem "var" [] [.text "x"]],
             .elem "subscale" [("name", "b")] [.elem "var" [] [.text "y"]]])
          ["x"]).2.2 ↔
        x ∈ (parseConfig
            (.elem "root" []
              [.elem "subscale" [("name", "a")] [.elem "var" [] [.text "x"]],
               .elem "subscale" [("name", "b")] [.elem "var" [] [.text "y"]]])
            ["x"]).2.1 ∧ x ∉ (["x"] : List String) :=
  parseConfig_spec
    (.elem "root" []
      [.elem "subscale" [("name", "a")] [.elem "var" [] [.text "x"]],
       .elem "subscale" [("name", "b")] [.elem "var" [] [.text "y"]]])
    ["x"] rfl

/-- The fuel-based digit list agrees with `Nat.digits 10`, most significant
digit first, whenever the fuel suffices. -/
theorem pyNatDigits_eq_digits (fuel : ℕ) :
    ∀ n, n ≤ fuel → pyNatDigits fuel n = (Nat.digits 10 n).reverse := by
  induction fuel with
  | zero =>
    intro n hn
    interval_cases n
    simp [pyNatDigits]
  | succ f ih =>
    intro n hn
    match n with
    | 0 => simp [pyNatDigits]
    | m + 1 =>
      rw [pyNatDigits]
      have hdiv : (m + 1) / 10 < m + 1 := Nat.div_lt_self (Nat.succ_pos m) (by norm_num)
      rw [ih ((m + 1) / 10) (by omega)]
      rw [Nat.digits_def' (by norm_num : (1 : ℕ) < 10) (Nat.succ_pos m)]
      simp

/-- The character list of `pyNatStr n` for positive `n`. -/
theorem pyNatStr_toList (n : ℕ) (hn : n ≠ 0) :
    (pyNatStr n).toList =
      ((Nat.digits 10 n).reverse).map (fun d => Char.ofNat (48 + d)) := by
  rw [pyNatStr, if_neg hn]
  show (pyNatDigits n n).map _ = _
  rw [pyNatDigits_eq_digits n n le_rfl]

/-- Digit values below 10 map to decimal digit characters. -/
theorem charOfDigit_isDigit : ∀ d ∈ Finset.range 10, (Char.ofNat (48 + d)).isDigit = true := by
  decide

/-- The digit-character encoding is injective below 10. -/
theorem charOfDigit_inj : ∀ a ∈ Finset.range 10, ∀ b ∈ Finset.range 10,
    Char.ofNat (48 + a) = Char.ofNat (48 + b) → a = b := by
  decide

/-- Every character of `pyNatStr n` is a decimal digit. -/
theorem pyNatStr_all_digits (n : ℕ) : ∀ c ∈ (pyNatStr n).toList, c.isDigit = true := by
  by_cases hn : n = 0
  · subst hn
    decide
  · rw [pyNatStr_toList n hn]
    intro c hc
    obtain ⟨d, hd, rfl⟩ := List.mem_map.mp hc
    have hd10 : d < 10 := Nat.digits_lt_base (by norm_num) (List.mem_reverse.mp hd)
    exact charOfDigit_isDigit d (Finset.mem_range.mpr hd10)

/-- `pyNatStr n` is never the empty character list. -/
theorem pyNatStr_toList_ne_nil (n : ℕ) : (pyNatStr n).toList ≠ [] := by
  by_cases hn : n = 0
  · subst hn; decide
  · rw [pyNatStr_toList n hn]
    intro h
    have := List.map_eq_nil_iff.mp h
    rw [List.reverse_eq_nil_iff] at this
    exact hn (Nat.digits_eq_nil_iff_eq_zero.mp this)

/-- A nonempty all-digit string that occurs inside `a :: w` with `a` not a
digit already occurs inside `w`. -/
theorem infix_drop_head_of_not_digit (s : List Char) (hs : s ≠ [])
    (hdig : ∀ c ∈ s, c.isDigit = true) (a : Char) (ha : a.isDigit = false)
    (w : List Char) (h : s <:+: a :: w) : s <:+: w := by
  obtain ⟨p, q, hpq⟩ := h
  match p with
  | [] =>
    exfalso
    match s with
    | [] => exact hs rfl
    | c :: cs =>
      have hca : c = a := by
        have := congrArg (fun l => l.head?) hpq
        simpa using this
      rw [← hca] at ha
      rw [hdig c (by simp)] at ha
      cases ha
  | x :: p' =>
    have hw : p' ++ s ++ q = w := by
      have := congrArg (fun l => l.tail) hpq
      simpa using this
    exact ⟨p', q, hw⟩

/-- A nonempty all-digit string occurring inside `pre ++ t` with `pre` free
of digits occurs inside `t`. -/
theorem infix_skip_nondigit_lead (s : List Char) (hs : s ≠ [])
    (hdig : ∀ c ∈ s, c.isDigit = true) :
    ∀ pre : List Char, (∀ c ∈ pre, c.isDigit = false) →
      ∀ t : List Char, s <:+: pre ++ t → s <:+: t := by
  intro pre
  induction pre with
  | nil => intro _ t h; simpa using h
  | cons a pre' ih =>
    intro hpre t h
    have h' : s <:+: pre' ++ t :=
      infix_drop_head_of_not_digit s hs hdig a (hpre a (by simp)) _ (by simpa using h)
    exact ih (fun c hc => hpre c (by simp [hc])) t h'

/-- Mapping digit values below 10 to characters is injective on lists. -/
theorem map_charOfDigit_inj :
    ∀ l₁ l₂ : List ℕ, (∀ x ∈ l₁, x < 10) → (∀ x ∈ l₂, x < 10) →
      l₁.map (fun d => Char.ofNat (48 + d)) = l₂.map (fun d => Char.ofNat (48 + d)) →
      l₁ = l₂ := by
  intro l₁
  induction l₁ with
  | nil =>
    intro l₂ _ _ h
    match l₂ with
    | [] => rfl
    | _ :: _ => simp at h
  | cons a t ih =>
    intro l₂ h₁ h₂ h
    match l₂ with
    | [] => simp at h
    | b :: t₂ =>
      simp only [List.map_cons, List.cons.injEq] at h
      have hab : a = b :=
        charOfDigit_inj a (Finset.mem_range.mpr (h₁ a (by simp)))
          b (Finset.mem_range.mpr (h₂ b (by simp))) h.1
      rw [hab, ih t₂ (fun x hx => h₁ x (by simp [hx])) (fun x hx => h₂ x (by simp [hx])) h.2]

/-- `str(d)` does not occur inside `str(k)` when `0 < k < d`. -/
theorem pyNatStr_not_infix_of_lt (d k : ℕ) (hk : 0 < k) (hkd : k < d) :
    ¬ ((pyNatStr d).toList <:+: (pyNatStr k).toList) := by
  intro hinf
  have hd0 : d ≠ 0 := by omega
  have hk0 : k ≠ 0 := by omega
  rw [pyNatStr_toList d hd0, pyNatStr_toList k hk0] at hinf
  have hlen := hinf.length_le
  simp only [List.length_map, List.length_reverse] at hlen
  have hmono := Nat.le_digits_len_le 10 k d (le_of_lt hkd)
  have heq : ((Nat.digits 10 d).reverse.map (fun x => Char.ofNat (48 + x))).length =
      ((Nat.digits 10 k).reverse.map (fun x => Char.ofNat (48 + x))).length := by
    simp only [List.length_map, List.length_reverse]
    omega
  have hlists := hinf.eq_of_length heq
  have hrev : (Nat.digits 10 d).reverse = (Nat.digits 10 k).reverse :=
    map_charOfDigit_inj _ _
      (fun x hx => Nat.digits_lt_base (by norm_num) (List.mem_reverse.mp hx))
      (fun x hx => Nat.digits_lt_base (by norm_num) (List.mem_reverse.mp hx)) hlists
  have : d = k := Nat.digits.injective 10 (List.reverse_injective hrev)
  omega

/-- `str(d)` occurs inside the column name `var ++ "_" ++ str(d)`. -/
theorem pyNatStr_infix_col (var : String) (d : ℕ) :
    (pyNatStr d).toList <:+: (var ++ "_" ++ pyNatStr d).toList :=
  ⟨(var ++ "_").toList, [], by simp⟩

/-- Counterexample to claim C1 as stated: for the variable name `x2` (which
contains the digit 2) with 2 breakpoint intervals and a value falling in
interval 2, the row sets `x2_1` — not `x2_2` — to 1, because `'2'` is a
substring of `'x2_1'`. -/
theorem generateCurRowInDict_one_hot_counterexample :
    checkWhichDivision (mkSplitList [0]) 1 = some 2 ∧
    generateCurRowInDict (generateColNames "x2" 2) 2 = [("x2_1", 1), ("x2_2", 0)] ∧
    ¬ generateCurRowInDict (generateColNames "x2" 2) 2 = [("x2_1", 0), ("x2_2", 1)] := by
  decide

/-- Once `hasSetOne` is set, every remaining column gets 0. -/
theorem generateCurRowInDictGo_true (d : ℕ) :
    ∀ cols : List String,
      generateCurRowInDictGo d cols true = cols.map (fun c => (c, 0)) := by
  intro cols
  induction cols with
  | nil => rfl
  | cons c cs ih => simp [generateCurRowInDictGo, ih]

/-- Scanning columns `A ++ cd :: B` where no column of `A` contains
`str(d)` and `cd` does: `cd` gets 1 and every other column gets 0. -/
theorem generateCurRowInDictGo_split (d : ℕ) (cd : String) (B : List String)
    (hcd : pySubstr (pyNatStr d) cd) :
    ∀ A : List String, (∀ c ∈ A, ¬ pySubstr (pyNatStr d) c) →
      generateCurRowInDictGo d (A ++ cd :: B) false =
        A.map (fun c => (c, 0)) ++ (cd, 1) :: B.map (fun c => (c, 0)) := by
  intro A
  induction A with
  | nil =>
    intro _
    simp only [List.nil_append, List.map_nil]
    rw [generateCurRowInDictGo]
    rw [if_neg (by simp), if_pos hcd, generateCurRowInDictGo_true]
  | cons a A' ih =>
    intro hA
    simp only [List.cons_append, List.map_cons]
    rw [generateCurRowInDictGo]
    rw [if_neg (by simp), if_neg (hA a (by simp)), ih (fun c hc => hA c (by simp [hc]))]

/-- A successful scan returns an index strictly above the offset and at most
offset + length. -/
theorem checkWhichDivisionAux_range :
    ∀ (l : List Division) (v : ℚ) (i r : ℕ),
      checkWhichDivisionAux l v i = some r → i < r ∧ r ≤ i + l.length := by
  intro l
  induction l with
  | nil => intro v i r h; exact absurd h (by simp [checkWhichDivisionAux])
  | cons dv rest ih =>
    intro v i r h
    rw [checkWhichDivisionAux] at h
    by_cases hc : divContains dv v
    · rw [if_pos hc] at h
      have hr : r = i + 1 := (Option.some_inj.mp h).symm
      subst hr
      simp only [List.length_cons]
      omega
    · rw [if_neg hc] at h
      have := ih v (i + 1) r h
      constructor
      · omega
      · simp only [List.length_cons]
        omega

/-- Claim C1 as amended by the counterexample: for every variable name
containing no decimal digit character, with `n` breakpoint intervals, and
every value `v` that `checkWhichDivision` places in some interval `d`, the
row dictionary `generateCurRowInDict(generateColNames(var, n), d)` assigns
1 to exactly the column `var_d` and 0 to every other of the `n` columns —
so each such row block is one-hot. -/
theorem generateCurRowInDict_one_hot (var : String) (split_list : List Division)
    (v : ℚ) (d : ℕ)
    (hvar : ∀ c ∈ var.toList, c.isDigit = false)
    (hd : checkWhichDivision split_list v = some d) :
    generateCurRowInDict (generateColNames var split_list.length) d =
      (List.range split_list.length).map
        (fun i => (var ++ "_" ++ pyNatStr (i + 1), if i + 1 = d then 1 else 0)) := by
  obtain ⟨hd1, hdn⟩ := checkWhichDivisionAux_range split_list v 0 d hd
  rw [Nat.zero_add] at hdn
  set n := split_list.length with hn
  have hpre : ∀ c ∈ (var ++ "_").toList, c.isDigit = false := by
    intro c hc
    rw [show (var ++ "_").toList = var.toList ++ ['_'] from rfl] at hc
    rcases List.mem_append.mp hc with h | h
    · exact hvar c h
    · rw [List.mem_singleton.mp h]; rfl
  have hnotsub : ∀ i : ℕ, i + 1 < d →
      ¬ pySubstr (pyNatStr d) (var ++ "_" ++ pyNatStr (i + 1)) := by
    intro i hi hsub
    rw [pySubstr] at hsub
    rw [show (var ++ "_" ++ pyNatStr (i + 1)).toList
      = (var ++ "_").toList ++ (pyNatStr (i + 1)).toList from rfl] at hsub
    exact pyNatStr_not_infix_of_lt d (i + 1) (Nat.succ_pos i) hi
      (infix_skip_nondigit_lead _ (pyNatStr_toList_ne_nil d) (pyNatStr_all_digits d)
        _ hpre _ hsub)
  have hkey : d - 1 + 1 = d := by omega
  have hrange : List.range n = List.range' 0 (d - 1) ++ (d - 1) :: List.range' d (n - d) := by
    have h1 := List.range'_append 0 (d - 1) (n - d + 1) 1
    simp only [Nat.zero_add, Nat.one_mul] at h1
    rw [show n - d + 1 + (d - 1) = n from by omega] at h1
    have h3 : List.range' (d - 1) (n - d + 1) = (d - 1) :: List.range' d (n - d) := by
      rw [List.range'_succ, hkey]
    rw [List.range_eq_range', ← h1, h3]
  rw [generateCurRowInDict, generateColNames, hrange, List.map_append, List.map_cons, hkey]
  have hsubd : pySubstr (pyNatStr d) (var ++ "_" ++ pyNatStr d) :=
    pyNatStr_infix_col var d
  have hAnone : ∀ c ∈ (List.range' 0 (d - 1)).map
      (fun i => var ++ "_" ++ pyNatStr (i + 1)),
      ¬ pySubstr (pyNatStr d) c := by
    intro c hc
    obtain ⟨i, hi, rfl⟩ := List.mem_map.mp hc
    have hmem := List.mem_range'_1.mp hi
    exact hnotsub i (by omega)
  rw [generateCurRowInDictGo_split d (var ++ "_" ++ pyNatStr d)
    ((List.range' d (n - d)).map (fun i => var ++ "_" ++ pyNatStr (i + 1))) hsubd
    ((List.range' 0 (d - 1)).map (fun i => var ++ "_" ++ pyNatStr (i + 1))) hAnone]
  rw [List.map_append, List.map_cons]
  congr 1
  · rw [List.map_map]
    apply List.map_congr_left
    intro i hi
    have hmem := List.mem_range'_1.mp hi
    have : ¬ (i + 1 = d) := by omega
    simp [this]
  · congr 1
    · rw [hkey, if_pos rfl]
    · rw [List.map_map]
      apply List.map_congr_left
      intro i hi
      have hmem := List.mem_range'_1.mp hi
      have : ¬ (i + 1 = d) := by omega
      simp [this]

/-- Witness for `generateCurRowInDict_one_hot`: digit-free variable `x`,
2 intervals, value 1 falling in interval 2. -/
theorem generateCurRowInDict_one_hot_witness :
    generateCurRowInDict
        (generateColNames "x"
          ([Division.firstDiv 0, Division.lastDiv 0] : List Division).length) 2 =
      (List.range ([Division.firstDiv 0, Division.lastDiv 0] : List Division).length).map
        (fun i => ("x" ++ "_" ++ pyNatStr (i + 1), if i + 1 = 2 then 1 else 0)) :=
  generateCurRowInDict_one_hot "x" [.firstDiv 0, .lastDiv 0] 1 2 (by decide) (by decide)

end TwoLayer
